import Mathlib

set_option maxRecDepth 200000

/-!
Verification of the UAsset patcher core (`Tools/py/uasset_patcher.py` and the
`ByteBuffer` text reader of `Tools/py/inventory_sort_mod.py`).

The Python code is shallowly embedded: byte buffers are `List Nat` (each
element a byte value 0..255), Python `str` values are `List Nat` of Unicode
code points, Python `int` is `Int`, and fallible reads (which raise
`struct.error` in Python when the sliced buffer is too short) return
`Except PyError`.  Python slice semantics (negative indices, clamping) are
modelled by `pySlice` / `pyWriteSlice`.
-/

/-- Byte buffers: lists of byte values (0..255). -/
abbrev Bytes := List Nat

/-- Python strings: lists of Unicode code points. -/
abbrev PyStr := List Nat

/-- Errors the Python code can raise during parsing: `struct.error` from
`struct.unpack` on a short slice, and `ValueError` for a bad magic. -/
inductive PyError where
  | structError : PyError
  | invalidMagic : Nat → PyError
deriving DecidableEq

/-- Effective index of a Python slice endpoint `i` on a sequence of length
`len`: negative indices count from the end, and both ends clamp to
`[0, len]`. -/
def pySliceIdx (len : Nat) (i : Int) : Nat :=
  if i < 0 then (max 0 ((len : Int) + i)).toNat else min i.toNat len

/-- Python slice `data[start:stop]` (step 1). -/
def pySlice (data : Bytes) (start stop : Int) : Bytes :=
  (data.take (pySliceIdx data.length stop)).drop (pySliceIdx data.length start)

/-- Python slice assignment `data[start:stop] = repl` (step 1): the selected
region is removed and `repl` is put in its place.  When the effective stop is
before the effective start, Python inserts at the start index. -/
def pyWriteSlice (data : Bytes) (start stop : Int) (repl : Bytes) : Bytes :=
  let s := pySliceIdx data.length start
  let e := max s (pySliceIdx data.length stop)
  data.take s ++ repl ++ data.drop e

/-- Value of a little-endian byte string. -/
def leVal : Bytes → Nat
  | [] => 0
  | b :: rest => b + 256 * leVal rest

/-- Little-endian encoding of `v` on `w` bytes (`struct.pack` of an unsigned
field; the value is reduced mod `256^w`). -/
def packNat : Nat → Nat → Bytes
  | 0, _ => []
  | w + 1, v => v % 256 :: packNat w (v / 256)

/-- Little-endian two's-complement encoding of a signed value on `w` bytes
(`struct.pack('<i')` / `struct.pack('<q')` for in-range values). -/
def packInt (w : Nat) (v : Int) : Bytes :=
  packNat w (v.emod ((256 : Int) ^ w)).toNat

/-- Signed reinterpretation of an unsigned `w`-byte value. -/
def toSigned (w : Nat) (n : Nat) : Int :=
  if 2 * n < 256 ^ w then (n : Int) else (n : Int) - (256 : Int) ^ w

/-- `struct.unpack` of a `w`-byte unsigned little-endian field at offset
`off`: Python slices `data[off:off+w]` and `struct.error` is raised when the
slice is shorter than `w`. -/
def structUnpackLE (w : Nat) (data : Bytes) (off : Int) : Except PyError Nat :=
  let s := pySlice data off (off + (w : Int))
  if s.length = w then .ok (leVal s) else .error .structError

/-- `UAssetParser._read_uint32`. -/
def read_uint32 (data : Bytes) (off : Int) : Except PyError Nat :=
  structUnpackLE 4 data off

/-- `UAssetParser._read_int32`. -/
def read_int32 (data : Bytes) (off : Int) : Except PyError Int :=
  (structUnpackLE 4 data off).map (toSigned 4)

/-- `UAssetParser._read_int64`. -/
def read_int64 (data : Bytes) (off : Int) : Except PyError Int :=
  (structUnpackLE 8 data off).map (toSigned 8)

/-- `UAssetParser._write_int32`: `data[offset:offset+4] = struct.pack('<i', value)`. -/
def write_int32 (data : Bytes) (off : Int) (v : Int) : Bytes :=
  pyWriteSlice data off (off + 4) (packInt 4 v)

/-- Whether a byte is a UTF-8 continuation byte (`0x80..0xBF`). -/
def utf8Cont (b : Nat) : Bool := 0x80 ≤ b ∧ b ≤ 0xBF

/-- Allowed range of the first continuation byte after lead byte `b` of a
3-byte UTF-8 sequence (excludes overlong forms and surrogates, as CPython's
decoder does). -/
def utf8Cont3 (b b2 : Nat) : Bool :=
  if b = 0xE0 then 0xA0 ≤ b2 ∧ b2 ≤ 0xBF
  else if b = 0xED then 0x80 ≤ b2 ∧ b2 ≤ 0x9F
  else utf8Cont b2

/-- Allowed range of the first continuation byte after lead byte `b` of a
4-byte UTF-8 sequence. -/
def utf8Cont4 (b b2 : Nat) : Bool :=
  if b = 0xF0 then 0x90 ≤ b2 ∧ b2 ≤ 0xBF
  else if b = 0xF4 then 0x80 ≤ b2 ∧ b2 ≤ 0x8F
  else utf8Cont b2

/-- Python `bytes.decode('utf-8', errors='ignore')`, fuel-based so that it
reduces definitionally (each step consumes at least one byte, so a fuel of
the byte count is always enough). -/
def decodeUtf8IgnoreFuel : Nat → Bytes → PyStr
  | 0, _ => []
  | _ + 1, [] => []
  | fuel + 1, b :: rest =>
    if b < 0x80 then b :: decodeUtf8IgnoreFuel fuel rest
    else if 0xC2 ≤ b ∧ b ≤ 0xDF then
      match rest with
      | [] => []
      | b2 :: rest2 =>
        if utf8Cont b2 then ((b - 0xC0) * 64 + (b2 - 0x80)) :: decodeUtf8IgnoreFuel fuel rest2
        else decodeUtf8IgnoreFuel fuel (b2 :: rest2)
    else if 0xE0 ≤ b ∧ b ≤ 0xEF then
      match rest with
      | [] => []
      | [b2] => if utf8Cont3 b b2 then [] else decodeUtf8IgnoreFuel fuel [b2]
      | b2 :: b3 :: rest3 =>
        if utf8Cont3 b b2 then
          if utf8Cont b3 then
            ((b - 0xE0) * 4096 + (b2 - 0x80) * 64 + (b3 - 0x80)) :: decodeUtf8IgnoreFuel fuel rest3
          else decodeUtf8IgnoreFuel fuel (b3 :: rest3)
        else decodeUtf8IgnoreFuel fuel (b2 :: b3 :: rest3)
    else if 0xF0 ≤ b ∧ b ≤ 0xF4 then
      match rest with
      | [] => []
      | [b2] => if utf8Cont4 b b2 then [] else decodeUtf8IgnoreFuel fuel [b2]
      | [b2, b3] =>
        if utf8Cont4 b b2 then
          if utf8Cont b3 then [] else decodeUtf8IgnoreFuel fuel [b3]
        else decodeUtf8IgnoreFuel fuel [b2, b3]
      | b2 :: b3 :: b4 :: rest4 =>
        if utf8Cont4 b b2 then
          if utf8Cont b3 then
            if utf8Cont b4 then
              ((b - 0xF0) * 262144 + (b2 - 0x80) * 4096 + (b3 - 0x80) * 64 + (b4 - 0x80))
                :: decodeUtf8IgnoreFuel fuel rest4
            else decodeUtf8IgnoreFuel fuel (b4 :: rest4)
          else decodeUtf8IgnoreFuel fuel (b3 :: b4 :: rest4)
        else decodeUtf8IgnoreFuel fuel (b2 :: b3 :: b4 :: rest4)
    else decodeUtf8IgnoreFuel fuel rest

/-- Python `bytes.decode('utf-8', errors='ignore')`: decode UTF-8, silently
skipping invalid sequences (each maximal invalid subpart is dropped). -/
def decodeUtf8Ignore (bs : Bytes) : PyStr :=
  decodeUtf8IgnoreFuel bs.length bs

/-- Group a byte string into 16-bit little-endian code units (a trailing odd
byte is dropped, as `errors='ignore'` does). -/
def utf16leUnits : Bytes → List Nat
  | b0 :: b1 :: rest => (b0 + 256 * b1) :: utf16leUnits rest
  | _ => []

/-- Combine UTF-16 code units into code points, fuel-based so that it
reduces definitionally: surrogate pairs are joined and lone surrogates are
dropped (`errors='ignore'`). -/
def utf16CombineFuel : Nat → List Nat → List Nat
  | 0, _ => []
  | _ + 1, [] => []
  | fuel + 1, u :: rest =>
    if 0xD800 ≤ u ∧ u ≤ 0xDBFF then
      match rest with
      | [] => []
      | v :: rest2 =>
        if 0xDC00 ≤ v ∧ v ≤ 0xDFFF then
          (0x10000 + (u - 0xD800) * 0x400 + (v - 0xDC00)) :: utf16CombineFuel fuel rest2
        else utf16CombineFuel fuel (v :: rest2)
    else if 0xDC00 ≤ u ∧ u ≤ 0xDFFF then utf16CombineFuel fuel rest
    else u :: utf16CombineFuel fuel rest

/-- Combine UTF-16 code units into code points: surrogate pairs are joined
and lone surrogates are dropped. -/
def utf16Combine (us : List Nat) : List Nat :=
  utf16CombineFuel us.length us

/-- Python `bytes.decode('utf-16-le', errors='ignore')`. -/
def decodeUtf16leIgnore (bs : Bytes) : PyStr :=
  utf16Combine (utf16leUnits bs)

/-- Python `str.rstrip(chr(0))`: drop every trailing NUL code point. -/
def rstripNull (s : PyStr) : PyStr :=
  (s.reverse.dropWhile (· = 0)).reverse

/-- UTF-8 encoding of one code point (Python `str.encode('utf-8')`). -/
def utf8EncodeChar (c : Nat) : Bytes :=
  if c < 0x80 then [c]
  else if c < 0x800 then [0xC0 + c / 64, 0x80 + c % 64]
  else if c < 0x10000 then [0xE0 + c / 4096, 0x80 + c / 64 % 64, 0x80 + c % 64]
  else [0xF0 + c / 262144, 0x80 + c / 4096 % 64, 0x80 + c / 64 % 64, 0x80 + c % 64]

/-- Python `str.encode('utf-8')` on a full string. -/
def utf8Encode (s : PyStr) : Bytes :=
  s.flatMap utf8EncodeChar

/-- Python `str.lower` on one code point, for the ASCII range the repo's
names use. -/
def pyLowerChar (c : Nat) : Nat :=
  if 65 ≤ c ∧ c ≤ 90 then c + 32 else c

/-- Decimal rendering of an `Int` as code points (Python f-string `{i}`). -/
def intToStr (i : Int) : PyStr :=
  if i < 0 then 45 :: (Nat.toDigits 10 i.natAbs).map Char.toNat
  else (Nat.toDigits 10 i.toNat).map Char.toNat

/-- The placeholder label the parser substitutes for an unresolvable name
index: the Python f-string `idx_{i}`. -/
def idxPlaceholder (i : Int) : PyStr :=
  [105, 100, 120, 95] ++ intToStr i

/-- Name resolution used when parsing imports and exports:
`self.names[idx] if 0 <= idx < len(self.names) else f"idx_{idx}"`. -/
def resolveName (names : List PyStr) (idx : Int) : PyStr :=
  if 0 ≤ idx ∧ idx < (names.length : Int) then names.getD idx.toNat []
  else idxPlaceholder idx

/-- One entry of the parsed import table (the dict built by
`UAssetParser._parse_imports` / `UAssetParser.add_import`). -/
structure ImportEntry where
  class_package_idx : Int
  class_name_idx : Int
  outer_index : Int
  object_name_idx : Int
  offset : Int
  class_package : PyStr
  class_name : PyStr
  object_name : PyStr
deriving DecidableEq

/-- One entry of the parsed export table (the dict built by
`UAssetParser._parse_exports`). -/
structure ExportEntry where
  class_index : Int
  super_index : Int
  template_index : Int
  outer_index : Int
  object_name_idx : Int
  object_flags : Nat
  serial_size : Int
  serial_offset : Int
  offset : Int
  object_name : PyStr
deriving DecidableEq

/-- The in-memory state of `UAssetParser`: the raw buffer plus the parsed
tables and the header fields the Python code keeps as attributes. -/
structure UAssetParser where
  uasset_data : Bytes
  names : List PyStr
  imports : List ImportEntry
  exports : List ExportEntry
  name_count : Int
  name_offset : Int
  export_count : Int
  export_offset : Int
  import_count : Int
  import_offset : Int
  name_table_end : Int
  import_table_end : Int
deriving DecidableEq

/-- The loop body of `UAssetParser._parse_names`: iterate `range(name_count)`
with the two `break` conditions (`pos >= len(data)` and the `> 10000` sanity
check), reading `[length:int32][text][hash skipped]` per entry.  Returns the
accumulated names and the final position (`name_table_end`). -/
def parseNamesLoop (data : Bytes) : Nat → Int → List PyStr → Except PyError (List PyStr × Int)
  | 0, pos, acc => .ok (acc, pos)
  | fuel + 1, pos, acc =>
    if pos ≥ (data.length : Int) then .ok (acc, pos)
    else do
      let strLen ← read_int32 data pos
      let pos1 := pos + 4
      let isUtf16 := strLen < 0
      let strLen1 := if strLen < 0 then -strLen else strLen
      if strLen1 > 10000 then .ok (acc, pos1)
      else if isUtf16 then
        let name := rstripNull (decodeUtf16leIgnore (pySlice data pos1 (pos1 + strLen1 * 2)))
        parseNamesLoop data fuel (pos1 + strLen1 * 2 + 4) (acc ++ [name])
      else
        let name := rstripNull (decodeUtf8Ignore (pySlice data pos1 (pos1 + strLen1)))
        parseNamesLoop data fuel (pos1 + strLen1 + 4) (acc ++ [name])

/-- The loop body of `UAssetParser._parse_imports`: `range(import_count)`
iterations of fixed 28-byte entries, breaking when fewer than 28 bytes
remain.  Returns the entries and the final position (`import_table_end`). -/
def parseImportsLoop (data : Bytes) (names : List PyStr) :
    Nat → Int → List ImportEntry → Except PyError (List ImportEntry × Int)
  | 0, pos, acc => .ok (acc, pos)
  | fuel + 1, pos, acc =>
    if pos + 28 > (data.length : Int) then .ok (acc, pos)
    else do
      let cpV ← read_int64 data pos
      let cnV ← read_int64 data (pos + 8)
      let oiV ← read_int32 data (pos + 16)
      let onV ← read_int32 data (pos + 20)
      let imp : ImportEntry :=
        { class_package_idx := cpV, class_name_idx := cnV, outer_index := oiV,
          object_name_idx := onV, offset := pos,
          class_package := resolveName names cpV,
          class_name := resolveName names cnV,
          object_name := resolveName names onV }
      parseImportsLoop data names fuel (pos + 28) (acc ++ [imp])

/-- The loop body of `UAssetParser._parse_exports`: at most
`min(export_count, 100)` iterations at a fixed 104-byte stride, breaking when
fewer than 104 bytes remain. -/
def parseExportsLoop (data : Bytes) (names : List PyStr) :
    Nat → Int → List ExportEntry → Except PyError (List ExportEntry)
  | 0, _, acc => .ok acc
  | fuel + 1, pos, acc =>
    if pos + 104 > (data.length : Int) then .ok acc
    else do
      let ciV ← read_int32 data pos
      let siV ← read_int32 data (pos + 4)
      let tiV ← read_int32 data (pos + 8)
      let oiV ← read_int32 data (pos + 12)
      let onV ← read_int32 data (pos + 16)
      let flV ← read_uint32 data (pos + 20)
      let ssV ← read_int64 data (pos + 24)
      let soV ← read_int64 data (pos + 32)
      let exp : ExportEntry :=
        { class_index := ciV, super_index := siV, template_index := tiV,
          outer_index := oiV, object_name_idx := onV, object_flags := flV,
          serial_size := ssV, serial_offset := soV, offset := pos,
          object_name := resolveName names onV }
      parseExportsLoop data names fuel (pos + 104) (acc ++ [exp])

/-- `UAssetParser.__init__` followed by `UAssetParser._parse` on a byte
buffer: verify the magic, read the six header fields at offsets 41..64, and
parse the three tables. -/
def UAssetParser.load (data : Bytes) : Except PyError UAssetParser := do
  let magic ← read_uint32 data 0
  if magic ≠ 0x9E2A83C1 then .error (.invalidMagic magic)
  else do
    let nameCount ← read_int32 data 41
    let nameOffset ← read_int32 data 45
    let exportCount ← read_int32 data 49
    let exportOffset ← read_int32 data 53
    let importCount ← read_int32 data 57
    let importOffset ← read_int32 data 61
    let names ← parseNamesLoop data nameCount.toNat nameOffset []
    let imports ← parseImportsLoop data names.1 importCount.toNat importOffset []
    let exports ← parseExportsLoop data names.1 (min exportCount 100).toNat exportOffset []
    .ok { uasset_data := data, names := names.1, imports := imports.1, exports := exports,
          name_count := nameCount, name_offset := nameOffset,
          export_count := exportCount, export_offset := exportOffset,
          import_count := importCount, import_offset := importOffset,
          name_table_end := names.2, import_table_end := imports.2 }

/-- `UAssetParser.save` restricted to the bytes it writes for the `.uasset`
file: the (possibly mutated) buffer, unchanged. -/
def UAssetParser.serialize (p : UAssetParser) : Bytes :=
  p.uasset_data

/-- `UAssetParser.find_name_index`: `self.names.index(name)` with `-1` for a
missing name. -/
def UAssetParser.find_name_index (p : UAssetParser) (name : PyStr) : Int :=
  match p.names.findIdx? (· == name) with
  | some i => (i : Int)
  | none => -1

/-- The hash `UAssetParser.add_name` computes for a new name: FNV-1a style
over the lowercased string, masked to 32 bits exactly as the Python loop
does (`((hash_val ^ ord(c)) * 0x01000193) & 0xFFFFFFFF`). -/
def add_name_hash (name : PyStr) : Nat :=
  (name.map pyLowerChar).foldl (fun h c => ((h ^^^ c) * 0x01000193) &&& 0xFFFFFFFF) 0

/-- `UAssetParser._shift_offsets_after`: bump `export_offset` (header bytes
53..56) and `import_offset` (header bytes 61..64) when they lie strictly
after the insertion position.  The Python comment itself notes this is
"a simplified version - in practice, more offsets need updating". -/
def UAssetParser.shift_offsets_after (p : UAssetParser) (position amount : Int) : UAssetParser :=
  let p1 :=
    if p.export_offset > position then
      { p with export_offset := p.export_offset + amount,
               uasset_data := write_int32 p.uasset_data 53 (p.export_offset + amount) }
    else p
  if p1.import_offset > position then
    { p1 with import_offset := p1.import_offset + amount,
              uasset_data := write_int32 p1.uasset_data 61 (p1.import_offset + amount) }
  else p1

/-- `UAssetParser.add_name`: return the existing index when present;
otherwise splice `[len:uint32][utf8 text + NUL][hash:uint32]` at
`name_table_end`, append to `names`, bump `name_count` (rewriting header
bytes 41..44), advance `name_table_end`, and shift later offsets. -/
def UAssetParser.add_name (p : UAssetParser) (name : PyStr) : UAssetParser × Int :=
  let existing := p.find_name_index name
  if existing ≥ 0 then (p, existing)
  else
    let nameBytes := utf8Encode name ++ [0]
    let entry := packNat 4 nameBytes.length ++ nameBytes ++ packNat 4 (add_name_hash name)
    let insertPos := p.name_table_end
    let data1 := pyWriteSlice p.uasset_data insertPos insertPos entry
    let names1 := p.names ++ [name]
    let newIdx : Int := (names1.length : Int) - 1
    let p1 : UAssetParser :=
      { p with uasset_data := write_int32 data1 41 (p.name_count + 1),
               names := names1,
               name_count := p.name_count + 1,
               name_table_end := p.name_table_end + (entry.length : Int) }
    (p1.shift_offsets_after insertPos (entry.length : Int), newIdx)

/-- The 28-byte import entry `UAssetParser.add_import` builds:
`pack('<q', cp) + pack('<q', cn) + pack('<i', outer) + pack('<i', on) +
pack('<i', 0)`. -/
def importEntryBytes (cpIdx cnIdx outerIndex onIdx : Int) : Bytes :=
  packInt 8 cpIdx ++ packInt 8 cnIdx ++ packInt 4 outerIndex ++ packInt 4 onIdx ++ packInt 4 0

/-- `UAssetParser.add_import`: ensure the three names exist, splice the
28-byte entry at `import_table_end`, bump `import_count` (header bytes
57..60), record the entry, advance `import_table_end`, and return
`-(len(imports))`. -/
def UAssetParser.add_import (p : UAssetParser)
    (classPackage className objectName : PyStr) (outerIndex : Int) : UAssetParser × Int :=
  let r1 := p.add_name classPackage
  let r2 := r1.1.add_name className
  let r3 := r2.1.add_name objectName
  let p3 := r3.1
  let entry := importEntryBytes r1.2 r2.2 outerIndex r3.2
  let insertPos := p3.import_table_end
  let data1 := pyWriteSlice p3.uasset_data insertPos insertPos entry
  let newImport : ImportEntry :=
    { class_package_idx := r1.2, class_name_idx := r2.2,
      outer_index := outerIndex, object_name_idx := r3.2,
      class_package := classPackage, class_name := className,
      object_name := objectName, offset := insertPos }
  let imports1 := p3.imports ++ [newImport]
  let p4 : UAssetParser :=
    { p3 with uasset_data := write_int32 data1 57 (p3.import_count + 1),
              import_count := p3.import_count + 1,
              imports := imports1,
              import_table_end := p3.import_table_end + (entry.length : Int) }
  (p4, -(imports1.length : Int))

/-- The `ByteBuffer` reader of `inventory_sort_mod.py`: a byte array plus a
sequential cursor. -/
structure ByteBuffer where
  data : Bytes
  pos : Int
deriving DecidableEq

/-- Alias for the top-level `read_int32`, so that `ByteBuffer.read_int32`
can refer to it without resolving to itself. -/
def readInt32At : Bytes → Int → Except PyError Int := read_int32

/-- `ByteBuffer.read_int32`: unpack 4 bytes at the cursor, then advance it. -/
def ByteBuffer.read_int32 (b : ByteBuffer) : Except PyError (Int × ByteBuffer) := do
  let v ← readInt32At b.data b.pos
  .ok (v, { b with pos := b.pos + 4 })

/-- `ByteBuffer.read_bytes`: slice `count` bytes at the cursor (never fails;
a short slice is returned as-is) and advance the cursor by `count`. -/
def ByteBuffer.read_bytes (b : ByteBuffer) (count : Int) : Bytes × ByteBuffer :=
  (pySlice b.data b.pos (b.pos + count), { b with pos := b.pos + count })

/-- `ByteBuffer.read_fstring`: read a length-prefixed string.  Zero length
is the empty string; a negative length means `-length` UTF-16 code units
(`2 * length` bytes); a positive length means that many 8-bit bytes; all
trailing NULs are stripped by `rstrip`. -/
def ByteBuffer.read_fstring (b : ByteBuffer) : Except PyError (PyStr × ByteBuffer) := do
  let r ← b.read_int32
  let len := r.1
  let b1 := r.2
  if len = 0 then .ok ([], b1)
  else if len < 0 then
    let rb := b1.read_bytes (-len * 2)
    .ok (rstripNull (decodeUtf16leIgnore rb.1), rb.2)
  else
    let rb := b1.read_bytes len
    .ok (rstripNull (decodeUtf8Ignore rb.1), rb.2)

/-! ### Basic lemmas about the byte-level primitives -/

/-- A region of the buffer: `len` bytes starting at `off`. -/
def bufSlice (data : Bytes) (off len : Nat) : Bytes :=
  (data.drop off).take len

theorem pySliceIdx_natCast (len n : Nat) : pySliceIdx len (n : Int) = min n len := by
  simp [pySliceIdx]

theorem pySliceIdx_le (len : Nat) (i : Int) : pySliceIdx len i ≤ len := by
  unfold pySliceIdx
  split <;> omega

theorem length_packNat (w v : Nat) : (packNat w v).length = w := by
  induction w generalizing v with
  | zero => rfl
  | succ w ih => simp [packNat, ih]

theorem length_packInt (w : Nat) (v : Int) : (packInt w v).length = w :=
  length_packNat w _

theorem leVal_packNat (w v : Nat) : leVal (packNat w v) = v % 256 ^ w := by
  induction w generalizing v with
  | zero => simp [packNat, leVal, Nat.mod_one]
  | succ w ih =>
    rw [pow_succ']
    rw [Nat.mod_mul]
    simp [packNat, leVal, ih]

theorem toSigned_packInt (w : Nat) (v : Int)
    (h1 : -((256 : Int) ^ w) ≤ 2 * v) (h2 : 2 * v < (256 : Int) ^ w) :
    toSigned w (leVal (packInt w v)) = v := by
  unfold packInt toSigned
  rw [leVal_packNat]
  have hpow : ((256 ^ w : Nat) : Int) = (256 : Int) ^ w := by push_cast; ring
  have h0 : (0 : Int) < (256 : Int) ^ w := by positivity
  have he1 : 0 ≤ v.emod ((256 : Int) ^ w) := Int.emod_nonneg v (by omega)
  have he2 : v.emod ((256 : Int) ^ w) < (256 : Int) ^ w := Int.emod_lt_of_pos v h0
  have hcase : v.emod ((256 : Int) ^ w) = v ∨ v.emod ((256 : Int) ^ w) = v + (256 : Int) ^ w := by
    rcases le_or_lt 0 v with hv | hv
    · left; exact Int.emod_eq_of_lt hv (by omega)
    · right
      have hself : (v + (256 : Int) ^ w * 1).emod ((256 : Int) ^ w) = v.emod ((256 : Int) ^ w) :=
        Int.add_mul_emod_self_left v ((256 : Int) ^ w) 1
      have : (v + (256 : Int) ^ w).emod ((256 : Int) ^ w) = v.emod ((256 : Int) ^ w) := by
        simpa using hself
      rw [← this]
      exact Int.emod_eq_of_lt (by omega) (by omega)
  generalize hM : (256 : Int) ^ w = M at *
  generalize hN : (256 ^ w : Nat) = N at *
  have htn : (((v.emod M).toNat : Int)) = v.emod M := Int.toNat_of_nonneg he1
  have hlt : (v.emod M).toNat < N := by omega
  rw [Nat.mod_eq_of_lt hlt]
  split <;> omega

theorem structUnpackLE_append (a b : Bytes) (w : Nat) (h : w ≤ b.length) :
    structUnpackLE w (a ++ b) ((a.length : Nat) : Int) = .ok (leVal (b.take w)) := by
  unfold structUnpackLE pySlice
  have hcast : ((a.length : Nat) : Int) + (w : Int) = (((a.length + w : Nat)) : Int) := by
    push_cast; ring
  rw [hcast, pySliceIdx_natCast, pySliceIdx_natCast]
  have hlen : (a ++ b).length = a.length + b.length := by simp
  rw [hlen]
  have hm1 : min (a.length + w) (a.length + b.length) = a.length + w := by omega
  have hm2 : min a.length (a.length + b.length) = a.length := by omega
  rw [hm1, hm2, List.take_append, List.drop_left]
  have : (b.take w).length = w := by simp; omega
  rw [if_pos this]

theorem read_int32_pack_append (a c : Bytes) (v : Int)
    (h1 : -((256 : Int) ^ 4) ≤ 2 * v) (h2 : 2 * v < (256 : Int) ^ 4) :
    read_int32 (a ++ (packInt 4 v ++ c)) (a.length : Int) = .ok v := by
  unfold read_int32
  rw [structUnpackLE_append a (packInt 4 v ++ c) 4 (by simp [length_packInt])]
  rw [List.take_append_of_le_length (by simp [length_packInt]),
      List.take_of_length_le (by simp [length_packInt])]
  simp [Except.map, toSigned_packInt 4 v h1 h2]

theorem read_int64_pack_append (a c : Bytes) (v : Int)
    (h1 : -((256 : Int) ^ 8) ≤ 2 * v) (h2 : 2 * v < (256 : Int) ^ 8) :
    read_int64 (a ++ (packInt 8 v ++ c)) (a.length : Int) = .ok v := by
  unfold read_int64
  rw [structUnpackLE_append a (packInt 8 v ++ c) 8 (by simp [length_packInt])]
  rw [List.take_append_of_le_length (by simp [length_packInt]),
      List.take_of_length_le (by simp [length_packInt])]
  simp [Except.map, toSigned_packInt 8 v h1 h2]

theorem pyWriteSlice_insert_length (data : Bytes) (pos : Int) (e : Bytes) :
    (pyWriteSlice data pos pos e).length = data.length + e.length := by
  have h := pySliceIdx_le data.length pos
  simp [pyWriteSlice]
  omega

theorem pyWriteSlice_insert_eq (data : Bytes) (pos : Nat) (hpos : pos ≤ data.length) (e : Bytes) :
    pyWriteSlice data (pos : Int) (pos : Int) e = data.take pos ++ e ++ data.drop pos := by
  unfold pyWriteSlice
  rw [pySliceIdx_natCast]
  simp [Nat.min_eq_left hpos]

theorem write_int32_eq (data : Bytes) (off : Nat) (v : Int) (h : off + 4 ≤ data.length) :
    write_int32 data (off : Int) v = data.take off ++ packInt 4 v ++ data.drop (off + 4) := by
  unfold write_int32 pyWriteSlice
  have hcast : ((off : Nat) : Int) + 4 = (((off + 4 : Nat)) : Int) := by push_cast; ring
  rw [hcast, pySliceIdx_natCast, pySliceIdx_natCast]
  have hm1 : min off data.length = off := by omega
  have hm2 : min (off + 4) data.length = off + 4 := by omega
  rw [hm1, hm2]
  have hm3 : max off (off + 4) = off + 4 := by omega
  simp only [hm3]

theorem drop_append_of_le (a c : List Nat) (k : Nat) (h : a.length ≤ k) :
    (a ++ c).drop k = c.drop (k - a.length) := by
  obtain ⟨j, rfl⟩ : ∃ j, k = a.length + j := ⟨k - a.length, by omega⟩
  rw [List.drop_append]
  congr 1
  omega

theorem length_write_int32 (data : Bytes) (off : Nat) (v : Int) (h : off + 4 ≤ data.length) :
    (write_int32 data (off : Int) v).length = data.length := by
  rw [write_int32_eq data off v h]
  simp [length_packInt]
  omega

theorem bufSlice_write_int32 (data : Bytes) (off : Nat) (v : Int) (k n : Nat)
    (h1 : off + 4 ≤ data.length) (h2 : off + 4 ≤ k) :
    bufSlice (write_int32 data (off : Int) v) k n = bufSlice data k n := by
  rw [write_int32_eq data off v h1]
  unfold bufSlice
  rw [List.append_assoc, drop_append_of_le _ _ k (by simp; omega)]
  rw [drop_append_of_le _ _ _ (by simp [length_packInt]; omega)]
  rw [List.drop_drop]
  congr 2
  simp [length_packInt]
  omega

theorem bufSlice_insert_middle (data : Bytes) (pos : Nat) (e : Bytes) (j n : Nat)
    (hpos : pos ≤ data.length) (hj : j + n ≤ e.length) :
    bufSlice (data.take pos ++ e ++ data.drop pos) (pos + j) n = (e.drop j).take n := by
  unfold bufSlice
  rw [List.append_assoc, drop_append_of_le _ _ (pos + j) (by simp)]
  have hlt : (data.take pos).length = pos := by simp; omega
  rw [hlt]
  have : pos + j - pos = j := by omega
  rw [this]
  rw [List.drop_append_of_le_length (by omega)]
  rw [List.take_append_of_le_length (by simp; omega)]

theorem bufSlice_write_int32_int (data : Bytes) (off v : Int) (k n : Nat)
    (h0 : 0 ≤ off) (h1 : off.toNat + 4 ≤ data.length) (h2 : off.toNat + 4 ≤ k) :
    bufSlice (write_int32 data off v) k n = bufSlice data k n := by
  have hoff : off = ((off.toNat : Nat) : Int) := (Int.toNat_of_nonneg h0).symm
  rw [hoff]
  exact bufSlice_write_int32 data off.toNat v k n h1 h2

theorem length_write_int32_int (data : Bytes) (off v : Int)
    (h0 : 0 ≤ off) (h1 : off.toNat + 4 ≤ data.length) :
    (write_int32 data off v).length = data.length := by
  have hoff : off = ((off.toNat : Nat) : Int) := (Int.toNat_of_nonneg h0).symm
  rw [hoff]
  exact length_write_int32 data off.toNat v h1

theorem bufSlice_write_int32_low (data : Bytes) (off : Nat) (v : Int) (k n : Nat)
    (h1 : off + 4 ≤ data.length) (h2 : k + n ≤ off) :
    bufSlice (write_int32 data (off : Int) v) k n = bufSlice data k n := by
  rw [write_int32_eq data off v h1]
  unfold bufSlice
  rw [List.append_assoc,
      List.drop_append_of_le_length (by simp; omega),
      List.take_append_of_le_length (by simp; omega)]
  rw [List.drop_take, List.take_take]
  have : min n (off - k) = n := by omega
  rw [this]

theorem bufSlice_write_int32_low_int (data : Bytes) (off v : Int) (k n : Nat)
    (h0 : 0 ≤ off) (h1 : off.toNat + 4 ≤ data.length) (h2 : k + n ≤ off.toNat) :
    bufSlice (write_int32 data off v) k n = bufSlice data k n := by
  have hoff : off = ((off.toNat : Nat) : Int) := (Int.toNat_of_nonneg h0).symm
  rw [hoff]
  exact bufSlice_write_int32_low data off.toNat v k n h1 h2

/-! ### Structure-level lemmas about the mutation operations -/

theorem shift_offsets_after_fields (p : UAssetParser) (pos amt : Int) :
    (p.shift_offsets_after pos amt).names = p.names ∧
    (p.shift_offsets_after pos amt).imports = p.imports ∧
    (p.shift_offsets_after pos amt).exports = p.exports ∧
    (p.shift_offsets_after pos amt).name_count = p.name_count ∧
    (p.shift_offsets_after pos amt).name_offset = p.name_offset ∧
    (p.shift_offsets_after pos amt).export_count = p.export_count ∧
    (p.shift_offsets_after pos amt).import_count = p.import_count ∧
    (p.shift_offsets_after pos amt).name_table_end = p.name_table_end ∧
    (p.shift_offsets_after pos amt).import_table_end = p.import_table_end := by
  by_cases h1 : p.export_offset > pos <;> by_cases h2 : p.import_offset > pos <;>
    simp [UAssetParser.shift_offsets_after, h1, h2]

theorem write53_length (data : Bytes) (v : Int) (hlen : 65 ≤ data.length) :
    (write_int32 data 53 v).length = data.length :=
  length_write_int32_int data 53 v (by norm_num) (by omega)

theorem write61_length (data : Bytes) (v : Int) (hlen : 65 ≤ data.length) :
    (write_int32 data 61 v).length = data.length :=
  length_write_int32_int data 61 v (by norm_num) (by omega)

theorem write53_bufSlice_high (data : Bytes) (v : Int) (k n : Nat)
    (hk : 65 ≤ k) (hlen : 65 ≤ data.length) :
    bufSlice (write_int32 data 53 v) k n = bufSlice data k n :=
  bufSlice_write_int32_int data 53 v k n (by norm_num) (by omega) (by omega)

theorem write61_bufSlice_high (data : Bytes) (v : Int) (k n : Nat)
    (hk : 65 ≤ k) (hlen : 65 ≤ data.length) :
    bufSlice (write_int32 data 61 v) k n = bufSlice data k n :=
  bufSlice_write_int32_int data 61 v k n (by norm_num) (by omega) (by omega)

theorem shift_bufSlice_high (q : UAssetParser) (pos amt : Int) (k n : Nat)
    (hk : 65 ≤ k) (hlen : 65 ≤ q.uasset_data.length) :
    bufSlice (q.shift_offsets_after pos amt).uasset_data k n = bufSlice q.uasset_data k n := by
  by_cases h1 : q.export_offset > pos <;> by_cases h2 : q.import_offset > pos <;>
    simp only [UAssetParser.shift_offsets_after, h1, h2, if_pos, if_neg, ite_true, ite_false,
      not_true, not_false_iff]
  all_goals (first
    | (rw [write61_bufSlice_high _ _ k n hk (by rw [write53_length _ _ hlen]; exact hlen)]
       exact write53_bufSlice_high _ _ k n hk hlen)
    | exact write53_bufSlice_high _ _ k n hk hlen
    | exact write61_bufSlice_high _ _ k n hk hlen)

theorem shift_length (q : UAssetParser) (pos amt : Int) (hlen : 65 ≤ q.uasset_data.length) :
    (q.shift_offsets_after pos amt).uasset_data.length = q.uasset_data.length := by
  by_cases h1 : q.export_offset > pos <;> by_cases h2 : q.import_offset > pos <;>
    simp only [UAssetParser.shift_offsets_after, h1, h2, if_pos, if_neg, ite_true, ite_false,
      not_true, not_false_iff]
  all_goals (first
    | (rw [write61_length _ _ (by rw [write53_length _ _ hlen]; exact hlen)]
       exact write53_length _ _ hlen)
    | exact write53_length _ _ hlen
    | exact write61_length _ _ hlen)

/-! ### Concrete synthetic assets used as test inputs -/

/-- The uasset magic `0x9E2A83C1` as little-endian bytes. -/
def magicBytes : Bytes := [0xC1, 0x83, 0x2A, 0x9E]

/-- A minimal 65-byte header: magic, 37 opaque zero bytes, then the six
int32 header fields at offsets 41, 45, 49, 53, 57 and 61. -/
def mkHeader (nameCount nameOffset exportCount exportOffset importCount importOffset : Nat) : Bytes :=
  magicBytes ++ List.replicate 37 0 ++ packNat 4 nameCount ++ packNat 4 nameOffset ++
  packNat 4 exportCount ++ packNat 4 exportOffset ++ packNat 4 importCount ++ packNat 4 importOffset

/-- A serialized 8-bit name-table entry (`[len:int32][text][NUL][hash:uint32]`)
with a zero hash. -/
def nameEntryBytes (s : Bytes) : Bytes :=
  packNat 4 (s.length + 1) ++ s ++ [0] ++ packNat 4 0

/-- A fallback parser value used to destructure `Except` results. -/
def emptyParser : UAssetParser :=
  { uasset_data := [], names := [], imports := [], exports := [],
    name_count := 0, name_offset := 0, export_count := 0, export_offset := 0,
    import_count := 0, import_offset := 0, name_table_end := 0, import_table_end := 0 }

/-- Extract the parser from a successful load, or the fallback. -/
def loadedOr (e : Except PyError UAssetParser) : UAssetParser :=
  match e with
  | .ok m => m
  | .error _ => emptyParser

/-- A 65-byte asset with empty name, import and export tables. -/
def demoAsset : Bytes := mkHeader 0 0 0 0 0 0

/-- The model loaded from `demoAsset`. -/
def demoLoaded : UAssetParser := loadedOr (UAssetParser.load demoAsset)

/-- Asset exercising offset relocation: the spec-layout `dependsOffset`
bytes `[65,69)` hold 200, one name `"A"` at 69..79 (so `name_table_end` is
79), `export_offset = 100` and `import_offset = 110` both point past the
insertion point. -/
def relocAsset : Bytes := mkHeader 1 69 0 100 0 110 ++ packNat 4 200 ++ nameEntryBytes [65]

/-- The model loaded from `relocAsset`. -/
def relocLoaded : UAssetParser := loadedOr (UAssetParser.load relocAsset)

/-- Observables after `add_name "B"` on `relocAsset`: the insertion point,
the int32 stored at bytes `[65,69)` (the spec's `dependsOffset` slot), the
new buffer length, and the two offsets the code does relocate. -/
def relocProbe : Option (Int × Option Int × Nat × Int × Int) :=
  (UAssetParser.load relocAsset).toOption.map (fun m =>
    let r := m.add_name [66]
    (m.name_table_end, (read_int32 r.1.uasset_data 65).toOption, r.1.uasset_data.length,
     r.1.export_offset, r.1.import_offset))

/-- Asset exercising the stale import insertion point: one name `"A"`
(name table 65..75), a 5-byte gap, then one all-zero import entry at
80..108, with `export_offset = 108`. -/
def staleAsset : Bytes :=
  mkHeader 1 65 0 108 1 80 ++ nameEntryBytes [65] ++ List.replicate 5 0 ++ List.replicate 28 0

/-- Observables after `add_import "P" "C" "O" 0` on `staleAsset`: the
pre-call `import_table_end`, the relocated `import_offset`, and the 28-byte
regions at the stale position 108 and at the relocated table end 138. -/
def staleProbe : Option (Int × Int × Bytes × Bytes) :=
  (UAssetParser.load staleAsset).toOption.map (fun m =>
    let r := m.add_import [80] [67] [79] 0
    (m.import_table_end, r.1.import_offset,
     bufSlice r.1.uasset_data 108 28, bufSlice r.1.uasset_data 138 28))

/-- End-to-end asset of §8: names `["Foo","Bar","Baz"]` at 65..101, zero
imports (`import_offset = 101`), zero exports. -/
def endToEndAsset : Bytes :=
  mkHeader 3 65 0 137 0 101 ++ nameEntryBytes [70, 111, 111] ++
  nameEntryBytes [66, 97, 114] ++ nameEntryBytes [66, 97, 122]

/-- The model loaded from `endToEndAsset`. -/
def endToEndLoaded : UAssetParser := loadedOr (UAssetParser.load endToEndAsset)

/-- Observables after `addImport("/Game/X","SomeClass","Instance")` on the
end-to-end asset: stored name count, stored import count, `findName "Foo"`,
and the returned index. -/
def endToEndProbe : Option (Int × Int × Int × Int) :=
  (UAssetParser.load endToEndAsset).toOption.map (fun m =>
    let r := m.add_import [47, 71, 97, 109, 101, 47, 88]
      [83, 111, 109, 101, 67, 108, 97, 115, 115] [73, 110, 115, 116, 97, 110, 99, 101] 0
    (r.1.name_count, r.1.import_count, r.1.find_name_index [70, 111, 111], r.2))

/-- Asset declaring five names while the buffer only holds one entry:
the name table at 65 contains a single entry for `"A"` and then the buffer
ends (after 4 stray bytes). -/
def truncatedAsset : Bytes :=
  mkHeader 5 65 0 200 0 200 ++ [2, 0, 0, 0, 65, 0] ++ [0, 0, 0, 0]

/-- Name-table observables of a load: how many entries were actually
parsed, and the declared `name_count`. -/
def loadNamesProbe (data : Bytes) : Option (Nat × Int) :=
  (UAssetParser.load data).toOption.map (fun m => (m.names.length, m.name_count))

/-! ### Claim C1 -/

/-- C1, counterexample.  The claim says every tracked header offset field —
including `dependsOffset` (spec layout bytes `[65,69)`) — is updated to
`f + L` for an insertion at `p` with `f > p`.  On `relocAsset` the
`add_name "B"` insertion has `p = 79` and `L = 10` (the buffer grows from
79 to 89 bytes); the `dependsOffset` slot holds `f = 200 > 79`, yet after
the call it still reads 200 instead of `f + L = 210`, while
`export_offset` (100 → 110) and `import_offset` (110 → 120) did move. -/
theorem c1_counterexample :
    relocProbe = some (79, some 200, 89, 110, 120) ∧ (200 : Int) ≠ 200 + 10 :=
  ⟨by decide, by decide⟩

/-- C1, amended.  `_shift_offsets_after` relocates exactly two fields:
`export_offset` and `import_offset`, each set to `f + amount` when
`f > position` and left unchanged otherwise; every other model field is
unchanged, the buffer keeps its length, and only header bytes `[53,57)`
and `[61,65)` can change (regions `[0,53)`, `[57,61)` and `[65,…)` are
preserved). -/
theorem c1_amended_shift (p : UAssetParser) (pos amt : Int)
    (hlen : 65 ≤ p.uasset_data.length) :
    ((p.shift_offsets_after pos amt).export_offset =
      if p.export_offset > pos then p.export_offset + amt else p.export_offset) ∧
    ((p.shift_offsets_after pos amt).import_offset =
      if p.import_offset > pos then p.import_offset + amt else p.import_offset) ∧
    (p.shift_offsets_after pos amt).names = p.names ∧
    (p.shift_offsets_after pos amt).name_count = p.name_count ∧
    (p.shift_offsets_after pos amt).name_offset = p.name_offset ∧
    (p.shift_offsets_after pos amt).name_table_end = p.name_table_end ∧
    (p.shift_offsets_after pos amt).import_table_end = p.import_table_end ∧
    (p.shift_offsets_after pos amt).uasset_data.length = p.uasset_data.length ∧
    (∀ k n : Nat, k + n ≤ 53 →
      bufSlice (p.shift_offsets_after pos amt).uasset_data k n = bufSlice p.uasset_data k n) ∧
    (∀ k n : Nat, 57 ≤ k → k + n ≤ 61 →
      bufSlice (p.shift_offsets_after pos amt).uasset_data k n = bufSlice p.uasset_data k n) ∧
    (∀ k n : Nat, 65 ≤ k →
      bufSlice (p.shift_offsets_after pos amt).uasset_data k n = bufSlice p.uasset_data k n) := by
  refine ⟨?_, ?_, (shift_offsets_after_fields p pos amt).1,
    (shift_offsets_after_fields p pos amt).2.2.2.1,
    (shift_offsets_after_fields p pos amt).2.2.2.2.1,
    (shift_offsets_after_fields p pos amt).2.2.2.2.2.2.2.1,
    (shift_offsets_after_fields p pos amt).2.2.2.2.2.2.2.2,
    shift_length p pos amt hlen, ?_, ?_, ?_⟩
  · by_cases h1 : p.export_offset > pos <;> by_cases h2 : p.import_offset > pos <;>
      simp [UAssetParser.shift_offsets_after, h1, h2]
  · by_cases h1 : p.export_offset > pos <;> by_cases h2 : p.import_offset > pos <;>
      simp [UAssetParser.shift_offsets_after, h1, h2]
  · intro k n hkn
    by_cases h1 : p.export_offset > pos <;> by_cases h2 : p.import_offset > pos <;>
      simp only [UAssetParser.shift_offsets_after, h1, h2, ite_true, ite_false]
    · rw [bufSlice_write_int32_low_int _ 61 _ k n (by norm_num)
            (by rw [write53_length _ _ hlen]; omega) (by omega)]
      exact bufSlice_write_int32_low_int _ 53 _ k n (by norm_num) (by omega) (by omega)
    · exact bufSlice_write_int32_low_int _ 53 _ k n (by norm_num) (by omega) (by omega)
    · exact bufSlice_write_int32_low_int _ 61 _ k n (by norm_num) (by omega) (by omega)
  · intro k n hk hkn
    by_cases h1 : p.export_offset > pos <;> by_cases h2 : p.import_offset > pos <;>
      simp only [UAssetParser.shift_offsets_after, h1, h2, ite_true, ite_false]
    · rw [bufSlice_write_int32_low_int _ 61 _ k n (by norm_num)
            (by rw [write53_length _ _ hlen]; omega) (by omega)]
      exact bufSlice_write_int32_int _ 53 _ k n (by norm_num) (by omega) (by omega)
    · exact bufSlice_write_int32_int _ 53 _ k n (by norm_num) (by omega) (by omega)
    · exact bufSlice_write_int32_low_int _ 61 _ k n (by norm_num) (by omega) (by omega)
  · intro k n hk
    exact shift_bufSlice_high p pos amt k n hk hlen

/-- C1, amended, witness: the relocation equations evaluated on
`relocLoaded` for an insertion at position 79 of length 10. -/
theorem c1_amended_witness :
    ((relocLoaded.shift_offsets_after 79 10).export_offset =
      if relocLoaded.export_offset > 79 then relocLoaded.export_offset + 10
      else relocLoaded.export_offset) ∧
    ((relocLoaded.shift_offsets_after 79 10).import_offset =
      if relocLoaded.import_offset > 79 then relocLoaded.import_offset + 10
      else relocLoaded.import_offset) ∧
    (relocLoaded.shift_offsets_after 79 10).names = relocLoaded.names ∧
    (relocLoaded.shift_offsets_after 79 10).name_count = relocLoaded.name_count ∧
    (relocLoaded.shift_offsets_after 79 10).name_offset = relocLoaded.name_offset ∧
    (relocLoaded.shift_offsets_after 79 10).name_table_end = relocLoaded.name_table_end ∧
    (relocLoaded.shift_offsets_after 79 10).import_table_end = relocLoaded.import_table_end ∧
    (relocLoaded.shift_offsets_after 79 10).uasset_data.length =
      relocLoaded.uasset_data.length ∧
    (∀ k n : Nat, k + n ≤ 53 →
      bufSlice (relocLoaded.shift_offsets_after 79 10).uasset_data k n =
        bufSlice relocLoaded.uasset_data k n) ∧
    (∀ k n : Nat, 57 ≤ k → k + n ≤ 61 →
      bufSlice (relocLoaded.shift_offsets_after 79 10).uasset_data k n =
        bufSlice relocLoaded.uasset_data k n) ∧
    (∀ k n : Nat, 65 ≤ k →
      bufSlice (relocLoaded.shift_offsets_after 79 10).uasset_data k n =
        bufSlice relocLoaded.uasset_data k n) :=
  c1_amended_shift relocLoaded 79 10 (by decide)

/-! ### Claim C2 -/

/-- C2, evaluated at a failing input.  On `staleAsset`, the pre-call
`import_table_end` is 108 and `add_import "P" "C" "O" 0` inserts 30 bytes
of new name entries before the import table, so the relocated end of
the import table is `108 + 30 = 138` (consistently, `import_offset` ends up
`110 = 138 - 28`).  The 28-byte entry for name indices 1, 2, 3 is
nevertheless spliced at the stale pre-relocation position 108, while the
bytes at 138 are the old (shifted) all-zero entry: `_shift_offsets_after`
never updates `import_table_end`, so the new entry lands two bytes before
the relocated table instead of at its end, contradicting the claim. -/
theorem c2_stale_insertion :
    staleProbe = some (108, 110, importEntryBytes 1 2 0 3, List.replicate 28 0) ∧
    importEntryBytes 1 2 0 3 ≠ List.replicate 28 0 ∧ (108 : Int) + 30 = 138 :=
  ⟨by decide, by decide, by decide⟩

/-! ### Claim C7 -/

/-- C7, counterexample.  `truncatedAsset` declares `nameCount = 5` but holds
only one complete entry before the buffer ends; the claim says such a load
must fail with `InvalidMagic`/`OutOfBounds` and never return partial
entries.  Instead the load succeeds and the model holds 1 of the 5 declared
entries — a partial table, no error. -/
theorem c7_counterexample :
    (UAssetParser.load truncatedAsset).toOption.isSome = true ∧
    loadNamesProbe truncatedAsset = some (1, 5) :=
  ⟨by decide, by decide⟩

theorem structUnpackLE_ok_le (w : Nat) (data : Bytes) (off : Nat) (v : Nat) (hw : 0 < w)
    (h : structUnpackLE w data ((off : Nat) : Int) = .ok v) : off + w ≤ data.length := by
  unfold structUnpackLE at h
  dsimp only [] at h
  split at h
  case isTrue hlen =>
    unfold pySlice at hlen
    have hcast : ((off : Nat) : Int) + (w : Int) = (((off + w : Nat)) : Int) := by push_cast; ring
    rw [hcast, pySliceIdx_natCast, pySliceIdx_natCast] at hlen
    rw [List.length_drop, List.length_take] at hlen
    omega
  case isFalse => cases h

theorem read_int32_ok_le (data : Bytes) (off : Nat) (v : Int)
    (h : read_int32 data ((off : Nat) : Int) = .ok v) : off + 4 ≤ data.length := by
  unfold read_int32 at h
  cases hs : structUnpackLE 4 data ((off : Nat) : Int) with
  | ok n => exact structUnpackLE_ok_le 4 data off n (by norm_num) hs
  | error e => rw [hs] at h; simp [Except.map] at h

theorem load_ok_inv (data : Bytes) (m : UAssetParser) (h : UAssetParser.load data = .ok m) :
    m.uasset_data = data ∧ 65 ≤ data.length ∧
    parseExportsLoop data m.names (min m.export_count 100).toNat m.export_offset [] =
      .ok m.exports := by
  unfold UAssetParser.load at h
  cases h0 : read_uint32 data 0 with
  | error e => simp [h0, bind, Except.bind] at h
  | ok magic =>
  simp only [h0, bind, Except.bind] at h
  by_cases hm : magic ≠ 0x9E2A83C1
  · simp [hm] at h
  · simp only [hm, if_false, ite_false, Bool.false_eq_true, reduceIte] at h
    cases h1 : read_int32 data 41 with
    | error e => simp [h1] at h
    | ok ncnt =>
    simp only [h1] at h
    cases h2 : read_int32 data 45 with
    | error e => simp [h2] at h
    | ok noff =>
    simp only [h2] at h
    cases h3 : read_int32 data 49 with
    | error e => simp [h3] at h
    | ok ecnt =>
    simp only [h3] at h
    cases h4 : read_int32 data 53 with
    | error e => simp [h4] at h
    | ok eoff =>
    simp only [h4] at h
    cases h5 : read_int32 data 57 with
    | error e => simp [h5] at h
    | ok icnt =>
    simp only [h5] at h
    cases h6 : read_int32 data 61 with
    | error e => simp [h6] at h
    | ok ioff =>
    simp only [h6] at h
    cases h7 : parseNamesLoop data ncnt.toNat noff [] with
    | error e => simp [h7] at h
    | ok names =>
    simp only [h7] at h
    cases h8 : parseImportsLoop data names.1 icnt.toNat ioff [] with
    | error e => simp [h8] at h
    | ok imports =>
    simp only [h8] at h
    cases h9 : parseExportsLoop data names.1 (min ecnt 100).toNat eoff [] with
    | error e => simp [h9] at h
    | ok exports =>
    simp only [h9] at h
    cases h
    refine ⟨rfl, read_int32_ok_le data 61 ioff h6, ?_⟩
    simpa using h9

theorem parseExportsLoop_length (data : Bytes) (names : List PyStr) :
    ∀ (fuel : Nat) (pos : Int) (acc : List ExportEntry) (r : List ExportEntry),
      parseExportsLoop data names fuel pos acc = .ok r → r.length ≤ acc.length + fuel := by
  intro fuel
  induction fuel with
  | zero =>
    intro pos acc r h
    unfold parseExportsLoop at h
    cases h
    omega
  | succ fuel ih =>
    intro pos acc r h
    unfold parseExportsLoop at h
    split at h
    · cases h; omega
    · cases hr1 : read_int32 data pos with
      | error e => simp [hr1, bind, Except.bind] at h
      | ok v1 =>
      simp only [hr1, bind, Except.bind] at h
      cases hr2 : read_int32 data (pos + 4) with
      | error e => simp [hr2] at h
      | ok v2 =>
      simp only [hr2] at h
      cases hr3 : read_int32 data (pos + 8) with
      | error e => simp [hr3] at h
      | ok v3 =>
      simp only [hr3] at h
      cases hr4 : read_int32 data (pos + 12) with
      | error e => simp [hr4] at h
      | ok v4 =>
      simp only [hr4] at h
      cases hr5 : read_int32 data (pos + 16) with
      | error e => simp [hr5] at h
      | ok v5 =>
      simp only [hr5] at h
      cases hr6 : read_uint32 data (pos + 20) with
      | error e => simp [hr6] at h
      | ok v6 =>
      simp only [hr6] at h
      cases hr7 : read_int64 data (pos + 24) with
      | error e => simp [hr7] at h
      | ok v7 =>
      simp only [hr7] at h
      cases hr8 : read_int64 data (pos + 32) with
      | error e => simp [hr8] at h
      | ok v8 =>
      simp only [hr8] at h
      have hlen := ih _ _ _ h
      rw [List.length_append] at hlen
      simp only [List.length_cons, List.length_nil] at hlen
      omega

/-- C3: loading never mutates the buffer, so serializing immediately after
a successful load returns the input bytes unchanged, trailing unparsed
bytes included. -/
theorem c3_serialize_roundtrip (data : Bytes) (m : UAssetParser)
    (h : UAssetParser.load data = .ok m) : m.serialize = data := by
  unfold UAssetParser.serialize
  exact (load_ok_inv data m h).1

/-- C3, witness: the round trip evaluated on `demoAsset`. -/
theorem c3_serialize_roundtrip_witness : demoLoaded.serialize = demoAsset :=
  c3_serialize_roundtrip demoAsset demoLoaded (by rfl)

/-- C7, amended: a buffer shorter than the 65-byte header always fails to
load (with `InvalidMagic` or the `struct.error` standing for
`OutOfBounds` — the only two errors in the model), but a buffer that is
merely too short for the declared `nameCount` entries does NOT fail:
name parsing stops at the buffer end and the load succeeds with a partial
name table (`truncatedAsset`: 1 entry parsed of 5 declared). -/
theorem c7_amended_truncation :
    (∀ (data : Bytes) (m : UAssetParser), UAssetParser.load data = .ok m → 65 ≤ data.length) ∧
    loadNamesProbe truncatedAsset = some (1, 5) :=
  ⟨fun data m h => (load_ok_inv data m h).2.1, by decide⟩

/-- C7, amended, witness: the header bound applied to `demoAsset`. -/
theorem c7_amended_truncation_witness : 65 ≤ demoAsset.length :=
  c7_amended_truncation.1 demoAsset demoLoaded (by rfl)

/-- C10: export parsing reads at most `min(exportCount, 100)` entries. -/
theorem c10_export_scan_bound (data : Bytes) (m : UAssetParser)
    (h : UAssetParser.load data = .ok m) :
    m.exports.length ≤ min m.export_count.toNat 100 := by
  have h3 := (load_ok_inv data m h).2.2
  have hb := parseExportsLoop_length data m.names (min m.export_count 100).toNat
    m.export_offset [] m.exports h3
  simp only [List.length_nil] at hb
  omega

/-- C10, witness: the bound evaluated on `demoAsset`. -/
theorem c10_export_scan_bound_witness :
    demoLoaded.exports.length ≤ min demoLoaded.export_count.toNat 100 :=
  c10_export_scan_bound demoAsset demoLoaded (by rfl)

theorem add_name_not_found (p : UAssetParser) (name : PyStr)
    (h : ¬ p.find_name_index name ≥ 0) :
    (p.add_name name).1.names = p.names ++ [name] ∧
    (p.add_name name).2 = (p.names.length : Int) := by
  unfold UAssetParser.add_name
  rw [if_neg h]
  constructor
  · rw [(shift_offsets_after_fields _ _ _).1]
  · simp

/-- C6: a second `add_name` with the same string returns the index the
first call returned and leaves the whole model — names, counts, buffer —
unchanged. -/
theorem c6_add_name_idempotent (p : UAssetParser) (name : PyStr) :
    ((p.add_name name).1.add_name name).2 = (p.add_name name).2 ∧
    ((p.add_name name).1.add_name name).1 = (p.add_name name).1 := by
  by_cases h : p.find_name_index name ≥ 0
  · have h1 : p.add_name name = (p, p.find_name_index name) := by
      unfold UAssetParser.add_name
      rw [if_pos h]
    simp only [h1]
    exact ⟨trivial, trivial⟩
  · obtain ⟨hn, hi⟩ := add_name_not_found p name h
    have hfind0 : p.names.findIdx? (· == name) = none := by
      unfold UAssetParser.find_name_index at h
      cases hf : p.names.findIdx? (· == name) with
      | none => rfl
      | some i =>
        rw [hf] at h
        exact absurd (Int.natCast_nonneg i) h
    have hfindq : (p.add_name name).1.find_name_index name = (p.names.length : Int) := by
      unfold UAssetParser.find_name_index
      rw [hn, List.findIdx?_append, hfind0]
      simp [List.findIdx?]
    have hge : (p.add_name name).1.find_name_index name ≥ 0 := by
      rw [hfindq]
      exact Int.natCast_nonneg _
    have h2 : (p.add_name name).1.add_name name =
        ((p.add_name name).1, (p.add_name name).1.find_name_index name) := by
      conv_lhs => rw [UAssetParser.add_name]
      rw [if_pos hge]
    rw [h2, hfindq, hi]
    exact ⟨rfl, rfl⟩

theorem add_name_imports (p : UAssetParser) (name : PyStr) :
    (p.add_name name).1.imports = p.imports := by
  by_cases h : p.find_name_index name ≥ 0
  · unfold UAssetParser.add_name
    rw [if_pos h]
  · unfold UAssetParser.add_name
    rw [if_neg h]
    rw [(shift_offsets_after_fields _ _ _).2.1]

theorem add_import_ret (p : UAssetParser) (a b c : PyStr) (oi : Int) :
    (p.add_import a b c oi).2 = -((p.imports.length : Int) + 1) ∧
    (p.add_import a b c oi).1.imports.length = p.imports.length + 1 := by
  unfold UAssetParser.add_import
  constructor
  · simp [add_name_imports]
  · simp [add_name_imports]

/-- A sequence of `add_import` calls; each list element carries the
arguments (class package, class name, object name, outer index). -/
def addImportSeq (p : UAssetParser) : List (PyStr × PyStr × PyStr × Int) → UAssetParser
  | [] => p
  | a :: rest => addImportSeq (p.add_import a.1 a.2.1 a.2.2.1 a.2.2.2).1 rest

/-- The index returned by the `i`-th (0-based) call of a sequence of
`add_import` calls with argument list `l`, starting from model `p`. -/
def nthImportRet (p : UAssetParser) (l : List (PyStr × PyStr × PyStr × Int)) (i : Nat) : Int :=
  let q := addImportSeq p (l.take i)
  let a := l.getD i ([], [], [], 0)
  (q.add_import a.1 a.2.1 a.2.2.1 a.2.2.2).2

theorem addImportSeq_len (l : List (PyStr × PyStr × PyStr × Int)) :
    ∀ p : UAssetParser, (addImportSeq p l).imports.length = p.imports.length + l.length := by
  induction l with
  | nil => intro p; rfl
  | cons a rest ih =>
    intro p
    have h1 : addImportSeq p (a :: rest) =
        addImportSeq (p.add_import a.1 a.2.1 a.2.2.1 a.2.2.2).1 rest := rfl
    rw [h1, ih, (add_import_ret p a.1 a.2.1 a.2.2.1 a.2.2.2).2, List.length_cons]
    omega

/-- C5: on the synthetic asset with names `["Foo","Bar","Baz"]` and no
imports, `addImport("/Game/X","SomeClass","Instance")` leaves
`findName "Foo" = 0`, yields stored `nameCount = 6` and `importCount = 1`,
and returns `-1`; in general the `i`-th (0-based) import added to a model
with zero pre-existing imports returns `-(i+1)`. -/
theorem c5_end_to_end :
    endToEndProbe = some (6, 1, 0, -1) ∧
    ∀ (p : UAssetParser) (l : List (PyStr × PyStr × PyStr × Int)) (i : Nat),
      p.imports.length = 0 → i < l.length → nthImportRet p l i = -((i : Int) + 1) := by
  refine ⟨by decide, ?_⟩
  intro p l i h0 hi
  unfold nthImportRet
  rw [(add_import_ret _ _ _ _ _).1, addImportSeq_len, h0, List.length_take]
  have hmin : min i l.length = i := min_eq_left hi.le
  rw [hmin]
  norm_num

/-- C5, witness: the general law evaluated for the first import added to
the loaded end-to-end asset. -/
theorem c5_end_to_end_witness :
    nthImportRet endToEndLoaded
      [([47, 71, 97, 109, 101, 47, 88], [83, 111, 109, 101, 67, 108, 97, 115, 115],
        [73, 110, 115, 116, 97, 110, 99, 101], 0)] 0 = -1 :=
  c5_end_to_end.2 endToEndLoaded _ 0 (by decide) (by decide)

theorem take_min_length (l : List Nat) (n : Nat) : l.take (min n l.length) = l.take n := by
  rcases le_total n l.length with h | h
  · rw [min_eq_left h]
  · rw [min_eq_right h, List.take_length, List.take_of_length_le h]

theorem pySlice_append_take (a b : Bytes) (k : Nat) :
    pySlice (a ++ b) ((a.length : Nat) : Int) (((a.length + k : Nat) : Nat) : Int) = b.take k := by
  unfold pySlice
  rw [pySliceIdx_natCast, pySliceIdx_natCast, List.length_append]
  have h1 : min a.length (a.length + b.length) = a.length := by omega
  have h2 : min (a.length + k) (a.length + b.length) = a.length + min k b.length := by omega
  rw [h1, h2, List.take_append, List.drop_left]
  exact take_min_length b k

theorem entry_assoc (cpIdx cnIdx outerIdx objIdx : Int) :
    importEntryBytes cpIdx cnIdx outerIdx objIdx =
      packInt 8 cpIdx ++ (packInt 8 cnIdx ++ (packInt 4 outerIdx ++
        (packInt 4 objIdx ++ packInt 4 0))) := by
  simp [importEntryBytes, List.append_assoc]

/-- C4: the import entry built by `add_import` is exactly 28 bytes —
int64 `classPackageNameIdx` at 0, int64 `classNameIdx` at 8, int32
`outerIndex` at 16, int32 `objectNameIdx` at 20 (plus 4 zero bytes) — the
very offsets `_parse_imports` reads back; `add_import` splices exactly
this entry into the buffer (an insertion splice grows the buffer by the
entry length). -/
theorem c4_import_entry_layout (cpIdx cnIdx outerIdx objIdx : Int)
    (hcp1 : -((256 : Int) ^ 8) ≤ 2 * cpIdx) (hcp2 : 2 * cpIdx < (256 : Int) ^ 8)
    (hcn1 : -((256 : Int) ^ 8) ≤ 2 * cnIdx) (hcn2 : 2 * cnIdx < (256 : Int) ^ 8)
    (hoi1 : -((256 : Int) ^ 4) ≤ 2 * outerIdx) (hoi2 : 2 * outerIdx < (256 : Int) ^ 4)
    (hon1 : -((256 : Int) ^ 4) ≤ 2 * objIdx) (hon2 : 2 * objIdx < (256 : Int) ^ 4) :
    (importEntryBytes cpIdx cnIdx outerIdx objIdx).length = 28 ∧
    read_int64 (importEntryBytes cpIdx cnIdx outerIdx objIdx) 0 = .ok cpIdx ∧
    read_int64 (importEntryBytes cpIdx cnIdx outerIdx objIdx) 8 = .ok cnIdx ∧
    read_int32 (importEntryBytes cpIdx cnIdx outerIdx objIdx) 16 = .ok outerIdx ∧
    read_int32 (importEntryBytes cpIdx cnIdx outerIdx objIdx) 20 = .ok objIdx ∧
    (∀ (p : UAssetParser) (a b c : PyStr),
      (p.add_import a b c outerIdx).1.uasset_data =
        write_int32
          (pyWriteSlice (((p.add_name a).1.add_name b).1.add_name c).1.uasset_data
            (((p.add_name a).1.add_name b).1.add_name c).1.import_table_end
            (((p.add_name a).1.add_name b).1.add_name c).1.import_table_end
            (importEntryBytes (p.add_name a).2 ((p.add_name a).1.add_name b).2 outerIdx
              (((p.add_name a).1.add_name b).1.add_name c).2))
          57 ((((p.add_name a).1.add_name b).1.add_name c).1.import_count + 1)) ∧
    (∀ (d : Bytes) (pos : Int) (e : Bytes),
      (pyWriteSlice d pos pos e).length = d.length + e.length) := by
  refine ⟨by simp [importEntryBytes, length_packInt], ?_, ?_, ?_, ?_,
    fun p a b c => rfl, pyWriteSlice_insert_length⟩
  · rw [entry_assoc]
    have h := read_int64_pack_append [] (packInt 8 cnIdx ++ (packInt 4 outerIdx ++
      (packInt 4 objIdx ++ packInt 4 0))) cpIdx hcp1 hcp2
    simpa using h
  · rw [entry_assoc]
    have h := read_int64_pack_append (packInt 8 cpIdx) (packInt 4 outerIdx ++
      (packInt 4 objIdx ++ packInt 4 0)) cnIdx hcn1 hcn2
    rw [length_packInt] at h
    simpa using h
  · rw [entry_assoc]
    have h := read_int32_pack_append (packInt 8 cpIdx ++ packInt 8 cnIdx)
      (packInt 4 objIdx ++ packInt 4 0) outerIdx hoi1 hoi2
    rw [List.length_append, length_packInt, length_packInt] at h
    simp only [List.append_assoc] at h
    simpa using h
  · rw [entry_assoc]
    have h := read_int32_pack_append (packInt 8 cpIdx ++ packInt 8 cnIdx ++ packInt 4 outerIdx)
      (packInt 4 0) objIdx hon1 hon2
    rw [List.length_append, List.length_append, length_packInt, length_packInt,
      length_packInt] at h
    simp only [List.append_assoc] at h
    simpa using h

/-- C4, witness: the layout facts instantiated at name indices 1, 2, 3 and
outer index 0. -/
theorem c4_import_entry_layout_witness :
    (importEntryBytes 1 2 0 3).length = 28 ∧
    read_int64 (importEntryBytes 1 2 0 3) 0 = .ok 1 ∧
    read_int64 (importEntryBytes 1 2 0 3) 8 = .ok 2 ∧
    read_int32 (importEntryBytes 1 2 0 3) 16 = .ok 0 ∧
    read_int32 (importEntryBytes 1 2 0 3) 20 = .ok 3 ∧
    (∀ (p : UAssetParser) (a b c : PyStr),
      (p.add_import a b c 0).1.uasset_data =
        write_int32
          (pyWriteSlice (((p.add_name a).1.add_name b).1.add_name c).1.uasset_data
            (((p.add_name a).1.add_name b).1.add_name c).1.import_table_end
            (((p.add_name a).1.add_name b).1.add_name c).1.import_table_end
            (importEntryBytes (p.add_name a).2 ((p.add_name a).1.add_name b).2 0
              (((p.add_name a).1.add_name b).1.add_name c).2))
          57 ((((p.add_name a).1.add_name b).1.add_name c).1.import_count + 1)) ∧
    (∀ (d : Bytes) (pos : Int) (e : Bytes),
      (pyWriteSlice d pos pos e).length = d.length + e.length) :=
  c4_import_entry_layout 1 2 0 3 (by norm_num) (by norm_num) (by norm_num) (by norm_num)
    (by norm_num) (by norm_num) (by norm_num) (by norm_num)

theorem read_fstring_eq (b : ByteBuffer) (v : Int) (h : read_int32 b.data b.pos = .ok v) :
    b.read_fstring =
      (if v = 0 then .ok ([], { b with pos := b.pos + 4 })
      else if v < 0 then
        .ok (rstripNull (decodeUtf16leIgnore (pySlice b.data (b.pos + 4) (b.pos + 4 + -v * 2))),
             { b with pos := b.pos + 4 + -v * 2 })
      else
        .ok (rstripNull (decodeUtf8Ignore (pySlice b.data (b.pos + 4) (b.pos + 4 + v))),
             { b with pos := b.pos + 4 + v }) : Except PyError (PyStr × ByteBuffer)) := by
  unfold ByteBuffer.read_fstring ByteBuffer.read_int32 readInt32At ByteBuffer.read_bytes
  rw [h]
  rfl

/-- C8, counterexample.  A buffer whose stored length is 5 and whose text
bytes are `'a' 'b' 0 0 0` decodes to `"ab"`: the reader consumed exactly 5
bytes (the cursor ends at 9) but `rstrip` removed all three trailing
terminators, where the claim's "exactly one" would leave `"ab\x00\x00"`. -/
theorem c8_counterexample :
    (ByteBuffer.read_fstring ⟨[5, 0, 0, 0, 97, 98, 0, 0, 0], 0⟩).toOption.map
      (fun r => (r.1, r.2.pos)) = some ([97, 98], 9) ∧
    ([97, 98] : PyStr) ≠ [97, 98, 0, 0] :=
  ⟨by decide, by decide⟩

/-- C8, amended: a stored length of `-5` reads exactly 10 bytes decoded as
5 little-endian 16-bit code units, a stored length of `5` reads exactly
5 bytes decoded as 8-bit text, and in either case `rstrip` drops ALL
trailing NUL terminators (not exactly one). -/
theorem c8_amended_text_reader (body10 tail1 body5 tail2 : Bytes)
    (h10 : body10.length = 10) (h5 : body5.length = 5) :
    ByteBuffer.read_fstring ⟨packInt 4 (-5) ++ body10 ++ tail1, 0⟩ =
      .ok (rstripNull (decodeUtf16leIgnore body10), ⟨packInt 4 (-5) ++ body10 ++ tail1, 14⟩) ∧
    ByteBuffer.read_fstring ⟨packInt 4 5 ++ body5 ++ tail2, 0⟩ =
      .ok (rstripNull (decodeUtf8Ignore body5), ⟨packInt 4 5 ++ body5 ++ tail2, 9⟩) := by
  constructor
  · have hD : packInt 4 (-5) ++ body10 ++ tail1 = packInt 4 (-5) ++ (body10 ++ tail1) :=
      List.append_assoc ..
    have hread : read_int32 (packInt 4 (-5) ++ body10 ++ tail1) 0 = .ok (-5) := by
      rw [hD]
      have h := read_int32_pack_append [] (body10 ++ tail1) (-5) (by norm_num) (by norm_num)
      simpa using h
    rw [read_fstring_eq ⟨packInt 4 (-5) ++ body10 ++ tail1, 0⟩ (-5) hread]
    norm_num
    have hs := pySlice_append_take (packInt 4 (-5)) (body10 ++ tail1) 10
    rw [length_packInt] at hs
    norm_num at hs
    rw [hs, List.take_left' h10]
  · have hD : packInt 4 5 ++ body5 ++ tail2 = packInt 4 5 ++ (body5 ++ tail2) :=
      List.append_assoc ..
    have hread : read_int32 (packInt 4 5 ++ body5 ++ tail2) 0 = .ok 5 := by
      rw [hD]
      have h := read_int32_pack_append [] (body5 ++ tail2) 5 (by norm_num) (by norm_num)
      simpa using h
    rw [read_fstring_eq ⟨packInt 4 5 ++ body5 ++ tail2, 0⟩ 5 hread]
    norm_num
    have hs := pySlice_append_take (packInt 4 5) (body5 ++ tail2) 5
    rw [length_packInt] at hs
    norm_num at hs
    rw [hs, List.take_left' h5]

/-- C8, amended, witness: the reader evaluated on concrete UTF-16 text
`"ab"` followed by three NUL units, and concrete 8-bit text `"ab"`
followed by three NUL bytes. -/
theorem c8_amended_text_reader_witness :
    ByteBuffer.read_fstring ⟨packInt 4 (-5) ++ [97, 0, 98, 0, 0, 0, 0, 0, 0, 0] ++ [7], 0⟩ =
      .ok (rstripNull (decodeUtf16leIgnore [97, 0, 98, 0, 0, 0, 0, 0, 0, 0]),
           ⟨packInt 4 (-5) ++ [97, 0, 98, 0, 0, 0, 0, 0, 0, 0] ++ [7], 14⟩) ∧
    ByteBuffer.read_fstring ⟨packInt 4 5 ++ [97, 98, 0, 0, 0] ++ [7], 0⟩ =
      .ok (rstripNull (decodeUtf8Ignore [97, 98, 0, 0, 0]),
           ⟨packInt 4 5 ++ [97, 98, 0, 0, 0] ++ [7], 9⟩) :=
  c8_amended_text_reader [97, 0, 98, 0, 0, 0, 0, 0, 0, 0] [7] [97, 98, 0, 0, 0] [7]
    (by decide) (by decide)

/-- Modelled from the spec (§6), for comparison with the code's hash:
seed `hash = 0`; for each lowercase-folded character `c` of the name,
`hash = ((hash XOR codepoint(c)) * 0x01000193) mod 2^32`. -/
def specHashFNV (name : PyStr) : Nat :=
  (name.map pyLowerChar).foldl (fun h c => ((h ^^^ c) * 0x01000193) % 2 ^ 32) 0

theorem hash_step_eq (h c : Nat) :
    ((h ^^^ c) * 0x01000193) &&& 0xFFFFFFFF = ((h ^^^ c) * 0x01000193) % 2 ^ 32 := by
  have hm := Nat.and_pow_two_sub_one_eq_mod ((h ^^^ c) * 0x01000193) 32
  norm_num at hm ⊢
  exact hm

theorem hash_foldl_eq (l : List Nat) :
    ∀ acc : Nat, l.foldl (fun h c => ((h ^^^ c) * 0x01000193) &&& 0xFFFFFFFF) acc =
      l.foldl (fun h c => ((h ^^^ c) * 0x01000193) % 2 ^ 32) acc := by
  induction l with
  | nil => intro acc; rfl
  | cons x rest ih =>
    intro acc
    rw [List.foldl_cons, List.foldl_cons, hash_step_eq, ih]

theorem add_name_hash_eq_spec (name : PyStr) : add_name_hash name = specHashFNV name :=
  hash_foldl_eq (name.map pyLowerChar) 0

theorem pyWriteSlice_insert_eq_int (data : Bytes) (pos : Int) (e : Bytes)
    (h0 : 0 ≤ pos) (h1 : pos.toNat ≤ data.length) :
    pyWriteSlice data pos pos e = data.take pos.toNat ++ e ++ data.drop pos.toNat := by
  have hp : pos = ((pos.toNat : Nat) : Int) := (Int.toNat_of_nonneg h0).symm
  rw [hp]
  exact pyWriteSlice_insert_eq data pos.toNat (by omega) e

/-- C9: the hash `add_name` computes is exactly the spec's FNV-1a-style
fold (seed 0, XOR the lowercase-folded code point, multiply by
`0x01000193`, reduce mod `2^32`), and for a name not already present the
four bytes stored after the text in the freshly spliced entry are the
little-endian encoding of that hash. -/
theorem c9_hash_spec :
    (∀ name : PyStr, add_name_hash name = specHashFNV name) ∧
    (∀ (p : UAssetParser) (name : PyStr),
      p.find_name_index name < 0 → (65 : Int) ≤ p.name_table_end →
      p.name_table_end ≤ (p.uasset_data.length : Int) →
      bufSlice (p.add_name name).1.uasset_data
        (p.name_table_end.toNat + (4 + ((utf8Encode name).length + 1))) 4 =
        packNat 4 (specHashFNV name)) := by
  refine ⟨add_name_hash_eq_spec, ?_⟩
  intro p name hfind hlo hhi
  have hnot : ¬ p.find_name_index name ≥ 0 := by omega
  unfold UAssetParser.add_name
  rw [if_neg hnot]
  have hdlen : (pyWriteSlice p.uasset_data p.name_table_end p.name_table_end
      (packNat 4 (utf8Encode name ++ [0]).length ++ (utf8Encode name ++ [0]) ++
        packNat 4 (add_name_hash name))).length =
      p.uasset_data.length + (packNat 4 (utf8Encode name ++ [0]).length ++
        (utf8Encode name ++ [0]) ++ packNat 4 (add_name_hash name)).length :=
    pyWriteSlice_insert_length ..
  rw [shift_bufSlice_high _ _ _ _ _ (by omega)
      (by rw [length_write_int32_int _ 41 _ (by norm_num) (by rw [hdlen]; omega)]
          rw [hdlen]; omega)]
  rw [bufSlice_write_int32_int _ 41 _ _ 4 (by norm_num) (by rw [hdlen]; omega) (by omega)]
  rw [pyWriteSlice_insert_eq_int _ _ _ (by omega) (by omega)]
  rw [bufSlice_insert_middle _ _ _ _ _ (by omega)
      (by simp [length_packNat, List.length_append]; omega)]
  rw [List.drop_left' (by simp [length_packNat, List.length_append])]
  rw [List.take_of_length_le (by rw [length_packNat])]
  rw [add_name_hash_eq_spec]

/-- C9, witness: the hash equations evaluated for the name `"B"` added to
`relocLoaded`. -/
theorem c9_hash_spec_witness :
    add_name_hash [66] = specHashFNV [66] ∧
    bufSlice (relocLoaded.add_name [66]).1.uasset_data
      (relocLoaded.name_table_end.toNat + (4 + ((utf8Encode [66]).length + 1))) 4 =
      packNat 4 (specHashFNV [66]) :=
  ⟨c9_hash_spec.1 [66], c9_hash_spec.2 relocLoaded [66] (by decide) (by decide) (by decide)⟩
